import Mathlib

/-!
Verification of the SpeedPing probe engine core against its specification.

The Go sources are shallowly embedded:
* `src/src/model.go` — `Sample`, `Ring` (`Push`, `UpdateAt`, `Snapshot`),
  `AppModel` (`AddHost`, `AddHostWithCap`, `RemoveHostAt`).
* `src/src/ping.go` — `ProbingBackend.RunForHost`: the defaulting of
  `Interval`/`MaxRTT`/`GraceLate` and the three event handlers
  (`OnSend`, the deadline timer body, `OnRecv`), modelled as pure state
  transitions over an explicit event trace; the final `select` is modelled
  as two terminal outcomes.

Go `time.Duration` values are embedded as `Int` nanoseconds, `time.Time`
timestamps as `Int`, and the `float64` millisecond latency as an exact `Rat`
(`float64(rtt.Microseconds()) / 1000.0` becomes `(rtt / 1000 : Int) / 1000`
over `Rat`; Go integer division on the nonnegative values involved agrees
with Lean's `Int` division toward zero).
-/

namespace SpeedPing

/-- `SampleState` from model.go: OK, Loss (timeout), Late (grace window). -/
inductive SampleState where
  | ok
  | loss
  | late
deriving DecidableEq, Repr, Inhabited

/-- `Sample` from model.go. `T` is the timestamp, `MS` the millisecond
latency (negative for loss/timeouts), `Seq` the ICMP sequence number. -/
structure Sample where
  T : Int
  MS : Rat
  Seq : Nat
  State : SampleState
deriving DecidableEq, Repr, Inhabited

/-- Default number of samples retained per host (model.go `DefaultRingCap`). -/
def DefaultRingCap : Int := 600

/-- `Ring` from model.go: fixed backing storage, write cursor, logical count.
The `sync.RWMutex` only serialises the operations and has no sequential
content, so it is not represented. -/
structure Ring where
  data : List Sample
  head : Nat
  count : Nat
deriving DecidableEq, Repr, Inhabited

/-- A ring as `NewRing` builds it for a nonnegative capacity:
`make([]Sample, capacity)` zero-fills the backing storage. -/
def mkRing (capacity : Nat) : Ring :=
  { data := List.replicate capacity default, head := 0, count := 0 }

/-- `NewRing` from model.go. `make([]Sample, capacity)` panics at runtime in
Go when `capacity` is negative; the panic is modelled as `none`. -/
def NewRing (capacity : Int) : Option Ring :=
  if capacity < 0 then none else some (mkRing capacity.toNat)

namespace Ring

/-- `Ring.Push` from model.go: write at the cursor, advance it modulo the
capacity, saturate the count, and return the slot index used (`-1` for a
zero-capacity ring). -/
def Push (r : Ring) (s : Sample) : Ring × Int :=
  if r.data.length = 0 then
    (r, -1)
  else
    ({ data := r.data.set r.head s,
       head := (r.head + 1) % r.data.length,
       count := if r.count < r.data.length then r.count + 1 else r.count },
     (r.head : Int))

/-- `Ring.UpdateAt` from model.go: apply the mutator in place unless the ring
is empty or the index is outside `[0, len)`. -/
def UpdateAt (r : Ring) (idx : Int) (update : Sample → Sample) : Ring :=
  if r.count = 0 ∨ idx < 0 ∨ (r.data.length : Int) ≤ idx then r
  else { r with data := r.data.set idx.toNat (update (r.data.getD idx.toNat default)) }

/-- `Ring.Snapshot` from model.go: the retained samples oldest-to-newest.
Go computes `start = (head - count + len) % len` in `int` arithmetic; since
`count ≤ len` this equals the `Nat` expression `(head + len - count) % len`. -/
def Snapshot (r : Ring) : List Sample :=
  if r.count = 0 then []
  else
    (List.range r.count).map (fun i =>
      r.data.getD (((r.head + r.data.length - r.count) % r.data.length + i)
        % r.data.length) default)

/-- State invariant maintained by the ring operations. -/
def Inv (r : Ring) : Prop :=
  r.count ≤ r.data.length ∧ (r.head < r.data.length ∨ (r.data.length = 0 ∧ r.head = 0))

/-- Push every sample of the list in order, discarding the returned indices. -/
def pushAll (r : Ring) (ps : List Sample) : Ring :=
  ps.foldl (fun r s => (Push r s).1) r

end Ring

/-- Abstract effect of one push on the retained-samples list: append, evicting
the oldest entry once the capacity is reached (a capacity-0 ring stores
nothing). -/
def absPush (C : Nat) (l : List Sample) (s : Sample) : List Sample :=
  if C = 0 then l
  else if l.length < C then l ++ [s]
  else l.drop 1 ++ [s]

/-- `HostState` from model.go. -/
inductive HostState where
  | stopped
  | running
deriving DecidableEq, Repr, Inhabited

/-- `Host` from model.go. `ColorI` is the color/identity index; the source
only ever assigns it list positions, hence `Nat`. -/
structure Host where
  Name : String
  Addr : String
  ColorI : Nat
  State : HostState
  buf : Ring
deriving DecidableEq, Repr, Inhabited

/-- `AppModel` from model.go, restricted to the fields the registry
operations touch (`cfg` and `saveQ` belong to config persistence, which is
out of scope; the mutex has no sequential content). -/
structure AppModel where
  hosts : List Host
  pingIntervalMs : Int
deriving DecidableEq, Repr

/-- `NewAppModel` from model.go. -/
def NewAppModel : AppModel := { hosts := [], pingIntervalMs := 1000 }

/-- `AppModel.AddHost` from model.go: no capacity substitution; `none`
models the runtime panic of `make([]Sample, ringCap)` for negative
`ringCap` (via `NewRing`). -/
def AppModel.AddHost (m : AppModel) (name addr : String) (ringCap : Int) :
    Option (AppModel × Host) :=
  (NewRing ringCap).map fun buf =>
    let h : Host := { Name := name, Addr := addr, ColorI := m.hosts.length,
                      State := .stopped, buf := buf }
    ({ m with hosts := m.hosts ++ [h] }, h)

/-- `AppModel.AddHostWithCap` from model.go: substitutes `DefaultRingCap`
for a non-positive capacity before allocating the ring. -/
def AppModel.AddHostWithCap (m : AppModel) (name addr : String) (ringCap : Int) :
    Option (AppModel × Host) :=
  (NewRing (if ringCap ≤ 0 then DefaultRingCap else ringCap)).map fun buf =>
    let h : Host := { Name := name, Addr := addr, ColorI := m.hosts.length,
                      State := .stopped, buf := buf }
    ({ m with hosts := m.hosts ++ [h] }, h)

/-- The renumbering loop of `RemoveHostAt`
(`for i := range m.hosts { m.hosts[i].ColorI = i }`). -/
def renumberFrom (i : Nat) : List Host → List Host
  | [] => []
  | h :: t => { h with ColorI := i } :: renumberFrom (i + 1) t

/-- `AppModel.RemoveHostAt` from model.go: bounds check, slice compaction,
then `ColorI` renumbering. -/
def AppModel.RemoveHostAt (m : AppModel) (idx : Int) : AppModel × Bool :=
  if idx < 0 ∨ (m.hosts.length : Int) ≤ idx then (m, false)
  else
    ({ m with
        hosts := renumberFrom 0 (m.hosts.take idx.toNat ++ m.hosts.drop (idx.toNat + 1)) },
      true)

/-- Registry operations covered by the invariant claim: `AddHost` and
`RemoveHostAt` (capacities are the nonnegative values callers pass,
e.g. `DefaultRingCap`). -/
inductive RegistryOp where
  | add (name addr : String) (ringCap : Nat)
  | remove (idx : Int)

def applyOp (m : AppModel) (op : RegistryOp) : AppModel :=
  match op with
  | .add name addr cap =>
    match m.AddHost name addr (cap : Int) with
    | some (m', _) => m'
    | none => m
  | .remove idx => (m.RemoveHostAt idx).1

def applyOps (m : AppModel) (ops : List RegistryOp) : AppModel :=
  ops.foldl applyOp m

/-- Each host's color/identity index equals its position in the list. -/
def ColorInv (m : AppModel) : Prop :=
  m.hosts.map Host.ColorI = List.range m.hosts.length

/-! ping.go: durations are Go `time.Duration`, i.e. `Int` nanoseconds. -/

def millisecond : Int := 1000000

def second : Int := 1000000000

/-- `maxDur` helper from the UI source file. -/
def maxDur (a b : Int) : Int := if a > b then a else b

/-- `ProbingBackend` from ping.go. -/
structure ProbingBackend where
  Privileged : Bool
  Interval : Int
  MaxRTT : Int
  GraceLate : Int
deriving DecidableEq, Repr

/-- The "sane defaults" block of `RunForHost` (ping.go lines 51-59), applied
before any handler is wired: a non-positive `Interval` becomes 1 s, a
non-positive `MaxRTT` becomes `maxDur(3*Interval, 150ms)` (computed from the
already-defaulted interval), a non-positive `GraceLate` becomes 100 ms. -/
def ProbingBackend.withDefaults (pb : ProbingBackend) : ProbingBackend :=
  { pb with
    Interval := if pb.Interval ≤ 0 then second else pb.Interval,
    MaxRTT :=
      if pb.MaxRTT ≤ 0 then
        maxDur (3 * (if pb.Interval ≤ 0 then second else pb.Interval))
          (150 * millisecond)
      else pb.MaxRTT,
    GraceLate := if pb.GraceLate ≤ 0 then 100 * millisecond else pb.GraceLate }

/-- `float64(rtt.Microseconds()) / 1000.0` from ping.go, as an exact rational:
Go's `Duration.Microseconds()` is `int64(d) / 1000` truncated toward zero. -/
def msOf (rtt : Int) : Rat := ((Int.tdiv rtt 1000 : Int) : Rat) / 1000

/-- The `pending` record of `RunForHost` (ping.go lines 79-83). The timer
handle is represented by the event trace (a `deadline` event fires it); `idx`
is the ring index where a LOSS sample went, `pushed` is set once it has. -/
structure PendingRec where
  idx : Int
  pushed : Bool
deriving DecidableEq, Repr, Inhabited

/-- Lookup in the `pends` map (`seq -> pending`). -/
def pendsLookup (seq : Nat) : List (Nat × PendingRec) → Option PendingRec
  | [] => none
  | (k, p) :: t => if k = seq then some p else pendsLookup seq t

/-- Go `delete(pends, seq)`. -/
def pendsErase (seq : Nat) (l : List (Nat × PendingRec)) : List (Nat × PendingRec) :=
  l.filter (fun kp => kp.1 != seq)

/-- Go `pends[seq] = p` (overwrite semantics of a map assignment). -/
def pendsInsert (seq : Nat) (p : PendingRec) (l : List (Nat × PendingRec)) :
    List (Nat × PendingRec) :=
  (seq, p) :: pendsErase seq l

/-- The mutable state shared by the handlers of one `RunForHost` call: the
host's ring and the `pends` map. The `sync.Mutex` serialises the handlers;
the model runs them as atomic steps of an event trace. -/
structure LoopState where
  ring : Ring
  pends : List (Nat × PendingRec)
deriving DecidableEq, Repr

/-- `pinger.OnSend` (ping.go lines 90-111): register a pending record
(`idx = -1`, `pushed = false`) and arm the deadline timer (the arming is
represented by a later `deadline` event for the same sequence). -/
def onSend (st : LoopState) (seq : Nat) : LoopState :=
  { st with pends := pendsInsert seq { idx := -1, pushed := false } st.pends }

/-- The deadline-timer body (ping.go lines 92-107): if the pending record is
still there, push a LOSS sample with sentinel latency `-1`, record its ring
index and mark it pushed; the record is not removed. -/
def onDeadline (st : LoopState) (seq : Nat) (now : Int) : LoopState :=
  match pendsLookup seq st.pends with
  | none => st
  | some p =>
    { ring := (st.ring.Push { T := now, MS := -1, Seq := seq, State := .loss }).1,
      pends := pendsInsert seq
        { p with idx := (st.ring.Push { T := now, MS := -1, Seq := seq, State := .loss }).2,
                 pushed := true } st.pends }

/-- `pinger.OnRecv` (ping.go lines 114-155): stop the timer, remove the
pending record, then: OK push when `rtt ≤ MaxRTT`; in-place LOSS→LATE
conversion when a LOSS was pushed and the overage is within `GraceLate`;
otherwise a standalone LATE push. -/
def onRecv (pb : ProbingBackend) (st : LoopState) (seq : Nat) (rtt now : Int) :
    LoopState :=
  match pendsLookup seq st.pends with
  | some p =>
    if rtt ≤ pb.MaxRTT then
      { ring := (st.ring.Push
          { T := now, MS := msOf rtt, Seq := seq, State := .ok }).1,
        pends := pendsErase seq st.pends }
    else if p.pushed ∧ rtt ≤ pb.MaxRTT + pb.GraceLate then
      { ring := st.ring.UpdateAt p.idx
          (fun s => { s with State := .late, MS := msOf rtt, T := now }),
        pends := pendsErase seq st.pends }
    else
      { ring := (st.ring.Push { T := now, MS := msOf rtt, Seq := seq, State := .late }).1,
        pends := pendsErase seq st.pends }
  | none =>
    if rtt ≤ pb.MaxRTT then
      { ring := (st.ring.Push { T := now, MS := msOf rtt, Seq := seq, State := .ok }).1,
        pends := pendsErase seq st.pends }
    else
      { ring := (st.ring.Push { T := now, MS := msOf rtt, Seq := seq, State := .late }).1,
        pends := pendsErase seq st.pends }

/-- One handler invocation. A `deadline` event may occur at most once per
`send` (a `time.AfterFunc` timer fires once); a `deadline` after the reply
was handled models the benign race the timer body absorbs by checking the
map. -/
inductive ProbeEvent where
  | send (seq : Nat)
  | deadline (seq : Nat) (now : Int)
  | recv (seq : Nat) (rtt now : Int)

def stepEvent (pb : ProbingBackend) (st : LoopState) (e : ProbeEvent) : LoopState :=
  match e with
  | .send seq => onSend st seq
  | .deadline seq now => onDeadline st seq now
  | .recv seq rtt now => onRecv pb st seq rtt now

def runEvents (pb : ProbingBackend) (st : LoopState) (es : List ProbeEvent) : LoopState :=
  es.foldl (stepEvent pb) st

/-- Handler state at the start of `RunForHost` for a host with the given
ring capacity: empty `pends`, untouched ring. -/
def initState (cap : Nat) : LoopState := { ring := mkRing cap, pends := [] }

/-- Result of `RunForHost`'s final `select` (ping.go lines 161-175):
`ctx.Err()` on cancellation, or the error `pinger.Run()` returned. -/
inductive LoopResult where
  | ctxCanceled
  | runFailed (msg : String)
deriving DecidableEq, Repr

structure LoopFinal where
  state : LoopState
  pingerStopped : Bool
  result : LoopResult
deriving DecidableEq, Repr

/-- The `ctx.Done()` branch: stop the pinger, stop every outstanding timer,
reset `pends` to an empty map without touching the ring, return `ctx.Err()`. -/
def onCtxDone (st : LoopState) : LoopFinal :=
  { state := { ring := st.ring, pends := [] },
    pingerStopped := true,
    result := .ctxCanceled }

/-- The `errCh` branch: `pinger.Run()` failed; its error is returned as is. -/
def onRunError (st : LoopState) (msg : String) : LoopFinal :=
  { state := st, pingerStopped := false, result := .runFailed msg }

section RingLemmas

lemma getD_set_eq {α : Type} (l : List α) (i : Nat) (a d : α) (h : i < l.length) :
    (l.set i a).getD i d = a := by
  induction l generalizing i with
  | nil => simp at h
  | cons x t ih =>
    cases i with
    | zero => simp [List.set]
    | succ j =>
      simp only [List.set, List.getD_cons_succ]
      exact ih j (by simpa using h)

lemma getD_set_ne {α : Type} (l : List α) (i j : Nat) (a d : α) (h : i ≠ j) :
    (l.set i a).getD j d = l.getD j d := by
  induction l generalizing i j with
  | nil => simp [List.set]
  | cons x t ih =>
    cases i with
    | zero =>
      cases j with
      | zero => exact absurd rfl h
      | succ k => simp [List.set]
    | succ i' =>
      cases j with
      | zero => simp [List.set]
      | succ k =>
        simp only [List.set, List.getD_cons_succ]
        exact ih i' k (fun hc => h (by omega))

lemma add_mod_ne (C h0 d : Nat) (hh : h0 < C) (hd1 : 0 < d) (hd2 : d < C) :
    (h0 + d) % C ≠ h0 := by
  rcases Nat.lt_or_ge (h0 + d) C with hlt | hge
  · rw [Nat.mod_eq_of_lt hlt]; omega
  · rw [Nat.mod_eq_sub_mod hge, Nat.mod_eq_of_lt (by omega)]; omega

lemma ring_inv_mk (C : Nat) : (mkRing C).Inv := by
  rcases Nat.eq_zero_or_pos C with h | h <;> simp [Ring.Inv, mkRing, h]

lemma push_length (r : Ring) (s : Sample) :
    (r.Push s).1.data.length = r.data.length := by
  unfold Ring.Push
  by_cases h : r.data.length = 0 <;> simp [h]

lemma push_inv (r : Ring) (s : Sample) (h : r.Inv) : (r.Push s).1.Inv := by
  obtain ⟨h1, h2⟩ := h
  unfold Ring.Push Ring.Inv
  by_cases h0 : r.data.length = 0
  · rw [if_pos h0]
    exact ⟨h1, h2⟩
  · rw [if_neg h0]
    refine ⟨?_, Or.inl ?_⟩
    · simp only [List.length_set]
      split <;> omega
    · simp only [List.length_set]
      exact Nat.mod_lt _ (by omega)

lemma snapshot_length (r : Ring) : r.Snapshot.length = r.count := by
  unfold Ring.Snapshot
  split
  next h => simp [h]
  next h => simp

lemma snapshot_push_not_full (r : Ring) (s : Sample) (hh : r.head < r.data.length)
    (hcn : r.count < r.data.length) :
    (r.Push s).1.Snapshot = r.Snapshot ++ [s] := by
  have hn0 : ¬ r.data.length = 0 := by omega
  have hpush : (r.Push s).1 =
      ⟨r.data.set r.head s, (r.head + 1) % r.data.length, r.count + 1⟩ := by
    unfold Ring.Push
    rw [if_neg hn0, if_pos hcn]
  rw [hpush]
  unfold Ring.Snapshot
  rw [if_neg (show ¬ (Ring.mk (r.data.set r.head s) ((r.head + 1) % r.data.length)
    (r.count + 1)).count = 0 from Nat.succ_ne_zero r.count)]
  simp only [List.length_set]
  have hstart : ((r.head + 1) % r.data.length + r.data.length - (r.count + 1))
      % r.data.length = (r.head + r.data.length - r.count) % r.data.length := by
    have e1 : (r.head + 1) % r.data.length + r.data.length - (r.count + 1)
        = (r.head + 1) % r.data.length + (r.data.length - r.count - 1) := by omega
    rw [e1, Nat.mod_add_mod]
    congr 1
    omega
  rw [hstart]
  rw [List.range_succ, List.map_append, List.map_singleton]
  congr 1
  · by_cases hc0 : r.count = 0
    · simp [hc0]
    · rw [if_neg hc0]
      apply List.map_congr_left
      intro i hi
      rw [List.mem_range] at hi
      have e2 : ((r.head + r.data.length - r.count) % r.data.length + i) % r.data.length
          = (r.head + (r.data.length - r.count + i)) % r.data.length := by
        rw [Nat.mod_add_mod]
        congr 1
        omega
      rw [e2]
      exact getD_set_ne _ _ _ _ _
        (Ne.symm (add_mod_ne _ _ _ hh (by omega) (by omega)))
  · have e3 : ((r.head + r.data.length - r.count) % r.data.length + r.count)
        % r.data.length = r.head := by
      rw [Nat.mod_add_mod]
      have e4 : r.head + r.data.length - r.count + r.count = r.head + r.data.length := by
        omega
      rw [e4, Nat.add_mod_right, Nat.mod_eq_of_lt hh]
    rw [e3, getD_set_eq _ _ _ _ hh]

lemma snapshot_push_full (r : Ring) (s : Sample) (hh : r.head < r.data.length)
    (hcn : r.count = r.data.length) :
    (r.Push s).1.Snapshot = r.Snapshot.drop 1 ++ [s] := by
  have hn0 : ¬ r.data.length = 0 := by omega
  have hc0 : ¬ r.count = 0 := by omega
  have hpush : (r.Push s).1 =
      ⟨r.data.set r.head s, (r.head + 1) % r.data.length, r.count⟩ := by
    unfold Ring.Push
    rw [if_neg hn0, if_neg (by omega)]
  rw [hpush]
  unfold Ring.Snapshot
  rw [if_neg (show ¬ (Ring.mk (r.data.set r.head s) ((r.head + 1) % r.data.length)
    r.count).count = 0 from hc0)]
  rw [if_neg hc0]
  simp only [List.length_set]
  have hstart : ((r.head + 1) % r.data.length + r.data.length - r.count) % r.data.length
      = (r.head + 1) % r.data.length := by
    rw [hcn]
    have e : (r.head + 1) % r.data.length + r.data.length - r.data.length
        = (r.head + 1) % r.data.length := by omega
    rw [e, Nat.mod_eq_of_lt (Nat.mod_lt _ (by omega))]
  rw [hstart]
  have hstartOld : (r.head + r.data.length - r.count) % r.data.length = r.head := by
    rw [hcn]
    have e : r.head + r.data.length - r.data.length = r.head := by omega
    rw [e, Nat.mod_eq_of_lt hh]
  rw [hstartOld]
  obtain ⟨m, hm⟩ : ∃ m, r.data.length = m + 1 := ⟨r.data.length - 1, by omega⟩
  rw [hcn, hm]
  have hhm : r.head < m + 1 := hm ▸ hh
  have hdrop : ((List.range (m + 1)).map
        (fun i => r.data.getD ((r.head + i) % (m + 1)) default)).drop 1
      = (List.range m).map
        (fun j => r.data.getD ((r.head + (j + 1)) % (m + 1)) default) := by
    rw [List.range_succ_eq_map]
    simp [List.map_map, Function.comp]
  rw [hdrop]
  rw [List.range_succ, List.map_append, List.map_singleton]
  congr 1
  · apply List.map_congr_left
    intro i hi
    rw [List.mem_range] at hi
    have e : ((r.head + 1) % (m + 1) + i) % (m + 1) = (r.head + (i + 1)) % (m + 1) := by
      rw [Nat.mod_add_mod]
      congr 1
      omega
    rw [e]
    exact getD_set_ne _ _ _ _ _
      (Ne.symm (add_mod_ne _ _ _ hhm (by omega) (by omega)))
  · have e : ((r.head + 1) % (m + 1) + m) % (m + 1) = r.head := by
      rw [Nat.mod_add_mod]
      have e2 : r.head + 1 + m = r.head + (m + 1) := by omega
      rw [e2, Nat.add_mod_right, Nat.mod_eq_of_lt hhm]
    rw [e, getD_set_eq _ _ _ _ hh]

lemma snapshot_push (r : Ring) (s : Sample) (h : r.Inv) :
    (r.Push s).1.Snapshot = absPush r.data.length r.Snapshot s := by
  obtain ⟨hc, hh⟩ := h
  rcases hh with hh | ⟨h0, hhead⟩
  · have hn : ¬ r.data.length = 0 := by omega
    by_cases hfull : r.count < r.data.length
    · rw [snapshot_push_not_full r s hh hfull, absPush, if_neg hn,
        if_pos (by rw [snapshot_length]; exact hfull)]
    · have hceq : r.count = r.data.length := by omega
      rw [snapshot_push_full r s hh hceq, absPush, if_neg hn,
        if_neg (by rw [snapshot_length]; omega)]
  · have hc0 : r.count = 0 := by omega
    unfold Ring.Push
    rw [if_pos h0]
    unfold absPush
    rw [if_pos h0]

lemma snapshot_pushAll (r : Ring) (ps : List Sample) (h : r.Inv) :
    (r.pushAll ps).Snapshot = ps.foldl (absPush r.data.length) r.Snapshot := by
  induction ps generalizing r with
  | nil => rfl
  | cons p t ih =>
    unfold Ring.pushAll at *
    simp only [List.foldl_cons]
    rw [ih (r.Push p).1 (push_inv r p h), push_length, snapshot_push r p h]

lemma pushAll_inv (r : Ring) (ps : List Sample) (h : r.Inv) : (r.pushAll ps).Inv := by
  induction ps generalizing r with
  | nil => exact h
  | cons p t ih =>
    unfold Ring.pushAll at *
    simp only [List.foldl_cons]
    exact ih (r.Push p).1 (push_inv r p h)

lemma foldl_absPush_eq (C : Nat) (ps : List Sample) :
    ps.foldl (absPush C) [] = ps.drop (ps.length - min ps.length C) := by
  induction ps using List.reverseRecOn with
  | nil => simp
  | append_singleton qs s ih =>
    rw [List.foldl_append]
    simp only [List.foldl_cons, List.foldl_nil]
    rw [ih]
    by_cases hC : C = 0
    · subst hC
      have habs : absPush 0 (qs.drop (qs.length - min qs.length 0)) s
          = qs.drop (qs.length - min qs.length 0) := rfl
      rw [habs, List.drop_eq_nil_of_le (by omega),
        List.drop_eq_nil_of_le (by omega)]
    · by_cases hlt : qs.length < C
      · have h1 : qs.length - min qs.length C = 0 := by omega
        have h2 : (qs ++ [s]).length - min (qs ++ [s]).length C = 0 := by
          simp only [List.length_append, List.length_singleton]
          omega
        rw [h1, h2, List.drop_zero, List.drop_zero]
        unfold absPush
        rw [if_neg hC, if_pos hlt]
      · have hlen : (qs.drop (qs.length - min qs.length C)).length = C := by
          rw [List.length_drop]
          omega
        unfold absPush
        rw [if_neg hC, if_neg (by omega)]
        have h3 : qs.length - min qs.length C = qs.length - C := by omega
        have h4 : (qs ++ [s]).length - min (qs ++ [s]).length C = qs.length - C + 1 := by
          simp only [List.length_append, List.length_singleton]
          omega
        rw [h3, h4, List.drop_drop,
          List.drop_append_of_le_length (by omega : qs.length - C + 1 ≤ qs.length)]

lemma snapshot_mk (C : Nat) : (mkRing C).Snapshot = [] := by
  simp [Ring.Snapshot, mkRing]

lemma length_mk (C : Nat) : (mkRing C).data.length = C := by
  simp [mkRing]

lemma snapshot_single (cap : Nat) (hcap : 0 < cap) (s : Sample) :
    ((mkRing cap).Push s).1.Snapshot = [s] := by
  rw [snapshot_push _ _ (ring_inv_mk cap), length_mk, snapshot_mk]
  unfold absPush
  rw [if_neg (by omega), if_pos (by simpa using hcap)]
  simp

lemma push_mk_idx (cap : Nat) (hcap : 0 < cap) (s : Sample) :
    ((mkRing cap).Push s).2 = 0 := by
  unfold Ring.Push
  rw [if_neg (show ¬ (mkRing cap).data.length = 0 by rw [length_mk]; omega)]
  simp [mkRing]

lemma snapshot_two (cap : Nat) (hcap : 2 ≤ cap) (s1 s2 : Sample) :
    (((mkRing cap).Push s1).1.Push s2).1.Snapshot = [s1, s2] := by
  rw [snapshot_push _ _ (push_inv _ _ (ring_inv_mk cap)), push_length, length_mk,
    snapshot_single cap (by omega) s1]
  unfold absPush
  rw [if_neg (by omega), if_pos (by simp only [List.length_singleton]; omega)]
  simp

lemma push_mk_eq (cap : Nat) (hcap : 0 < cap) (t : Sample) :
    ((mkRing cap).Push t).1 = ⟨(mkRing cap).data.set 0 t, 1 % cap, 1⟩ := by
  have hn : ¬ (mkRing cap).data.length = 0 := by rw [length_mk]; omega
  unfold Ring.Push
  rw [if_neg hn, length_mk]
  simp [mkRing, hcap]

lemma updateAt_single (cap : Nat) (hcap : 0 < cap) (s : Sample) (f : Sample → Sample) :
    ((mkRing cap).Push s).1.UpdateAt 0 f = ((mkRing cap).Push (f s)).1 := by
  rw [push_mk_eq cap hcap s, push_mk_eq cap hcap (f s)]
  unfold Ring.UpdateAt
  split
  next hcond =>
    exfalso
    simp only [List.length_set, length_mk] at hcond
    omega
  next hcond =>
    congr 1
    rw [show ((0 : Int).toNat) = 0 from rfl,
      getD_set_eq _ _ _ _ (by rw [length_mk]; omega), List.set_set]

end RingLemmas

/-- C1: for every sequence of N pushes into a ring of fixed capacity C,
`Snapshot` returns exactly `min N C` samples, namely the most recently pushed
ones in chronological (oldest-to-newest) push order; the oldest pushed samples
beyond the retained `min N C` are absent. (In this functional embedding the
returned list is by construction a fresh value, matching the element-by-element
copy `Snapshot` performs in the source.) -/
theorem ring_snapshot_retains_last_min (C : Nat) (ps : List Sample) :
    ((mkRing C).pushAll ps).Snapshot.length = min ps.length C ∧
      ((mkRing C).pushAll ps).Snapshot = ps.drop (ps.length - min ps.length C) := by
  have hbase : (mkRing C).Snapshot = [] := by
    simp [Ring.Snapshot, mkRing]
  have hlen : (mkRing C).data.length = C := by
    simp [mkRing]
  have hmain : ((mkRing C).pushAll ps).Snapshot
      = ps.drop (ps.length - min ps.length C) := by
    rw [snapshot_pushAll _ _ (ring_inv_mk C), hlen, hbase, foldl_absPush_eq]
  refine ⟨?_, hmain⟩
  rw [hmain, List.length_drop]
  omega

/-! Helper lemmas for the probe-loop traces and the registry. -/

lemma pushAll_zero (ps : List Sample) : (mkRing 0).pushAll ps = mkRing 0 := by
  induction ps with
  | nil => rfl
  | cons p t ih => exact ih

lemma addHost_nonneg (m : AppModel) (name addr : String) (c : Int) (hc : 0 ≤ c) :
    m.AddHost name addr c = some
      ({ m with hosts := m.hosts ++
          [{ Name := name, Addr := addr, ColorI := m.hosts.length,
             State := .stopped, buf := mkRing c.toNat }] },
       { Name := name, Addr := addr, ColorI := m.hosts.length,
         State := .stopped, buf := mkRing c.toNat }) := by
  unfold AppModel.AddHost NewRing
  rw [if_neg (by omega)]
  rfl

lemma renumberFrom_map (l : List Host) (i : Nat) :
    (renumberFrom i l).map Host.ColorI = List.range' i l.length := by
  induction l generalizing i with
  | nil => rfl
  | cons h t ih =>
    simp [renumberFrom, ih, List.range'_succ]

lemma renumberFrom_length (l : List Host) (i : Nat) :
    (renumberFrom i l).length = l.length := by
  induction l generalizing i with
  | nil => rfl
  | cons h t ih => simp [renumberFrom, ih]

lemma colorList_append (l : List Host) (hst : Host)
    (h : l.map Host.ColorI = List.range l.length) (hcol : hst.ColorI = l.length) :
    (l ++ [hst]).map Host.ColorI = List.range (l ++ [hst]).length := by
  rw [List.map_append, h]
  simp only [List.map_cons, List.map_nil, List.length_append, List.length_cons,
    List.length_nil]
  rw [hcol, List.range_succ]

lemma colorList_renumber (l : List Host) :
    (renumberFrom 0 l).map Host.ColorI = List.range (renumberFrom 0 l).length := by
  rw [renumberFrom_map, renumberFrom_length, List.range_eq_range']

lemma colorInv_applyOp (m : AppModel) (op : RegistryOp) (h : ColorInv m) :
    ColorInv (applyOp m op) := by
  cases op with
  | add name addr cap =>
    have hAdd := addHost_nonneg m name addr (cap : Int) (by omega)
    simp only [applyOp, hAdd]
    exact colorList_append m.hosts _ h rfl
  | remove idx =>
    simp only [applyOp]
    unfold AppModel.RemoveHostAt
    split
    · exact h
    · exact colorList_renumber _

lemma colorInv_applyOps (m : AppModel) (ops : List RegistryOp) (h : ColorInv m) :
    ColorInv (applyOps m ops) := by
  induction ops generalizing m with
  | nil => exact h
  | cons o t ih =>
    unfold applyOps at *
    simp only [List.foldl_cons]
    exact ih (applyOp m o) (colorInv_applyOp m o h)

/-! The claims about the probe-loop reconciliation state machine. -/

/-- C4: for a single probe whose reply arrives with round-trip time at most
MaxRTT, the receive handler removes the Pending-Reply record and pushes
exactly one OK sample carrying the measured latency; no LOSS or LATE sample
exists for that sequence, and the deadline timer is inert afterwards (a late
fire finds no record and changes nothing). -/
theorem probe_ok_single_sample (pb : ProbingBackend) (cap seq : Nat) (rtt now : Int)
    (hcap : 0 < cap) (hrtt : rtt ≤ pb.MaxRTT) :
    (runEvents pb (initState cap) [.send seq, .recv seq rtt now]).ring.Snapshot
        = [{ T := now, MS := msOf rtt, Seq := seq, State := .ok }] ∧
    (runEvents pb (initState cap) [.send seq, .recv seq rtt now]).pends = [] ∧
    (∀ now2 : Int,
      stepEvent pb (runEvents pb (initState cap) [.send seq, .recv seq rtt now])
          (.deadline seq now2)
        = runEvents pb (initState cap) [.send seq, .recv seq rtt now]) := by
  have hstep : runEvents pb (initState cap) [.send seq, .recv seq rtt now]
      = ⟨((mkRing cap).Push { T := now, MS := msOf rtt, Seq := seq, State := .ok }).1,
         []⟩ := by
    simp [runEvents, stepEvent, onSend, onRecv, initState, pendsInsert, pendsErase,
      pendsLookup, hrtt]
  rw [hstep]
  exact ⟨snapshot_single cap hcap _, rfl, fun now2 => by
    simp [stepEvent, onDeadline, pendsLookup]⟩

theorem probe_ok_single_sample_witness :
    (runEvents ⟨false, 10, 1000, 100⟩ (initState 3) [.send 7, .recv 7 500 42]).ring.Snapshot
        = [{ T := 42, MS := msOf 500, Seq := 7, State := .ok }] ∧
    (runEvents ⟨false, 10, 1000, 100⟩ (initState 3) [.send 7, .recv 7 500 42]).pends = [] ∧
    (∀ now2 : Int,
      stepEvent ⟨false, 10, 1000, 100⟩
          (runEvents ⟨false, 10, 1000, 100⟩ (initState 3) [.send 7, .recv 7 500 42])
          (.deadline 7 now2)
        = runEvents ⟨false, 10, 1000, 100⟩ (initState 3) [.send 7, .recv 7 500 42]) :=
  probe_ok_single_sample ⟨false, 10, 1000, 100⟩ 3 7 500 42 (by decide) (by decide)

/-- C3: for a probe whose reply never arrives, the deadline firing while the
Pending-Reply record is still present inserts exactly one LOSS sample with
the negative sentinel latency `-1`, records its ring index (`0` in this fresh
ring, the index `Push` returned) and the already-inserted flag on the record,
and does not remove the record. No further event for this sequence occurs in
the trace (the timer fires once and the reply never arrives), so no further
sample is recorded. -/
theorem probe_loss_on_deadline (pb : ProbingBackend) (cap seq : Nat) (now : Int)
    (hcap : 0 < cap) :
    (runEvents pb (initState cap) [.send seq, .deadline seq now]).ring.Snapshot
        = [{ T := now, MS := -1, Seq := seq, State := .loss }] ∧
    (runEvents pb (initState cap) [.send seq, .deadline seq now]).pends
        = [(seq, { idx := 0, pushed := true })] := by
  have hstep : runEvents pb (initState cap) [.send seq, .deadline seq now]
      = ⟨((mkRing cap).Push { T := now, MS := -1, Seq := seq, State := .loss }).1,
         [(seq,
           { idx := ((mkRing cap).Push
               { T := now, MS := -1, Seq := seq, State := .loss }).2,
             pushed := true })]⟩ := by
    simp [runEvents, stepEvent, onSend, onDeadline, initState, pendsInsert, pendsErase,
      pendsLookup]
  rw [hstep, push_mk_idx cap hcap]
  exact ⟨snapshot_single cap hcap _, rfl⟩

theorem probe_loss_on_deadline_witness :
    (runEvents ⟨false, 10, 1000, 100⟩ (initState 3) [.send 7, .deadline 7 30]).ring.Snapshot
        = [{ T := 30, MS := -1, Seq := 7, State := .loss }] ∧
    (runEvents ⟨false, 10, 1000, 100⟩ (initState 3) [.send 7, .deadline 7 30]).pends
        = [(7, { idx := 0, pushed := true })] :=
  probe_loss_on_deadline ⟨false, 10, 1000, 100⟩ 3 7 30 (by decide)

/-- C2: for a probe whose reply arrives after MaxRTT but within
MaxRTT+GraceLate when a LOSS sample was already inserted by the deadline
timer, the receive handler converts that exact ring slot in place to LATE
with the measured latency and the receive timestamp, pushes no new sample,
and removes the Pending-Reply record: the ring ends with exactly one sample
for that sequence. -/
theorem probe_grace_conversion (pb : ProbingBackend) (cap seq : Nat)
    (t1 rtt t2 : Int) (hcap : 0 < cap)
    (h1 : pb.MaxRTT < rtt) (h2 : rtt ≤ pb.MaxRTT + pb.GraceLate) :
    (runEvents pb (initState cap)
        [.send seq, .deadline seq t1, .recv seq rtt t2]).ring.Snapshot
      = [{ T := t2, MS := msOf rtt, Seq := seq, State := .late }] ∧
    (runEvents pb (initState cap)
        [.send seq, .deadline seq t1, .recv seq rtt t2]).pends = [] := by
  have hnle : ¬ rtt ≤ pb.MaxRTT := not_le.mpr h1
  have hstep : runEvents pb (initState cap) [.send seq, .deadline seq t1, .recv seq rtt t2]
      = ⟨((mkRing cap).Push { T := t1, MS := -1, Seq := seq, State := .loss }).1.UpdateAt
           ((mkRing cap).Push { T := t1, MS := -1, Seq := seq, State := .loss }).2
           (fun s => { s with State := .late, MS := msOf rtt, T := t2 }), []⟩ := by
    simp [runEvents, stepEvent, onSend, onDeadline, onRecv, initState, pendsInsert,
      pendsErase, pendsLookup, hnle, h2]
  rw [hstep, push_mk_idx cap hcap, updateAt_single cap hcap]
  exact ⟨snapshot_single cap hcap _, rfl⟩

theorem probe_grace_conversion_witness :
    (runEvents ⟨false, 10, 1000, 100⟩ (initState 2)
        [.send 7, .deadline 7 30, .recv 7 1050 44]).ring.Snapshot
      = [{ T := 44, MS := msOf 1050, Seq := 7, State := .late }] ∧
    (runEvents ⟨false, 10, 1000, 100⟩ (initState 2)
        [.send 7, .deadline 7 30, .recv 7 1050 44]).pends = [] :=
  probe_grace_conversion ⟨false, 10, 1000, 100⟩ 2 7 30 1050 44
    (by decide) (by decide) (by decide)

/-- C5: for a probe whose reply arrives after MaxRTT, when no LOSS was ever
inserted (`pushed` still false) the receive handler pushes a new, disjoint
LATE sample and removes the Pending-Reply record; and when a LOSS was
inserted but the reply arrives after MaxRTT+GraceLate, it also pushes a
disjoint LATE sample, leaving two ring entries for that sequence: the
earlier LOSS and the separate LATE marker. -/
theorem probe_late_disjoint (pb : ProbingBackend) (cap seq : Nat)
    (rtt1 t1 rtt2 t2 t3 : Int) (hcap : 2 ≤ cap) (hg : 0 ≤ pb.GraceLate)
    (h1 : pb.MaxRTT < rtt1) (h2 : pb.MaxRTT + pb.GraceLate < rtt2) :
    ((runEvents pb (initState cap) [.send seq, .recv seq rtt1 t1]).ring.Snapshot
        = [{ T := t1, MS := msOf rtt1, Seq := seq, State := .late }] ∧
     (runEvents pb (initState cap) [.send seq, .recv seq rtt1 t1]).pends = []) ∧
    ((runEvents pb (initState cap)
        [.send seq, .deadline seq t2, .recv seq rtt2 t3]).ring.Snapshot
        = [{ T := t2, MS := -1, Seq := seq, State := .loss },
           { T := t3, MS := msOf rtt2, Seq := seq, State := .late }] ∧
     (runEvents pb (initState cap)
        [.send seq, .deadline seq t2, .recv seq rtt2 t3]).pends = []) := by
  constructor
  · have hnle : ¬ rtt1 ≤ pb.MaxRTT := not_le.mpr h1
    have hstep : runEvents pb (initState cap) [.send seq, .recv seq rtt1 t1]
        = ⟨((mkRing cap).Push { T := t1, MS := msOf rtt1, Seq := seq, State := .late }).1,
           []⟩ := by
      simp [runEvents, stepEvent, onSend, onRecv, initState, pendsInsert, pendsErase,
        pendsLookup, hnle]
    rw [hstep]
    exact ⟨snapshot_single cap (by omega) _, rfl⟩
  · have hnle : ¬ rtt2 ≤ pb.MaxRTT := by omega
    have hng : ¬ rtt2 ≤ pb.MaxRTT + pb.GraceLate := not_le.mpr h2
    have hstep : runEvents pb (initState cap) [.send seq, .deadline seq t2, .recv seq rtt2 t3]
        = ⟨(((mkRing cap).Push { T := t2, MS := -1, Seq := seq, State := .loss }).1.Push
             { T := t3, MS := msOf rtt2, Seq := seq, State := .late }).1, []⟩ := by
      simp [runEvents, stepEvent, onSend, onDeadline, onRecv, initState, pendsInsert,
        pendsErase, pendsLookup, hnle, hng]
    rw [hstep]
    exact ⟨snapshot_two cap hcap _ _, rfl⟩

theorem probe_late_disjoint_witness :
    ((runEvents ⟨false, 10, 1000, 100⟩ (initState 2) [.send 7, .recv 7 1050 41]).ring.Snapshot
        = [{ T := 41, MS := msOf 1050, Seq := 7, State := .late }] ∧
     (runEvents ⟨false, 10, 1000, 100⟩ (initState 2) [.send 7, .recv 7 1050 41]).pends = []) ∧
    ((runEvents ⟨false, 10, 1000, 100⟩ (initState 2)
        [.send 7, .deadline 7 30, .recv 7 2000 44]).ring.Snapshot
        = [{ T := 30, MS := -1, Seq := 7, State := .loss },
           { T := 44, MS := msOf 2000, Seq := 7, State := .late }] ∧
     (runEvents ⟨false, 10, 1000, 100⟩ (initState 2)
        [.send 7, .deadline 7 30, .recv 7 2000 44]).pends = []) :=
  probe_late_disjoint ⟨false, 10, 1000, 100⟩ 2 7 1050 41 2000 30 44
    (by decide) (by decide) (by decide) (by decide)

/-- C6 counterexample: `UpdateAt` applied to a stale index (slot 0 was
returned for the first push, then overwritten by wraparound in a
capacity-1 ring) is not a no-op: it mutates the newer sample now occupying
the slot, contradicting the claim that a stale call must leave it intact. -/
theorem updateAt_stale_not_noop :
    (((((mkRing 1).Push ⟨1, 10, 1, .ok⟩).1.Push ⟨2, 20, 2, .ok⟩).1).UpdateAt 0
        (fun s => { s with MS := 999 })).Snapshot = [⟨2, 999, 2, .ok⟩] ∧
    ((((mkRing 1).Push ⟨1, 10, 1, .ok⟩).1.Push ⟨2, 20, 2, .ok⟩).1).UpdateAt 0
        (fun s => { s with MS := 999 })
      ≠ (((mkRing 1).Push ⟨1, 10, 1, .ok⟩).1.Push ⟨2, 20, 2, .ok⟩).1 := by
  decide

/-- C6 (amended): `UpdateAt` is a no-op exactly when the ring is empty or the
index is outside `[0, capacity)`; it performs no staleness detection, so a
stale but in-bounds index mutates whatever sample now occupies that slot. -/
theorem updateAt_bounds_check_only (r : Ring) (idx : Int) (f : Sample → Sample) :
    (r.count = 0 ∨ idx < 0 ∨ (r.data.length : Int) ≤ idx → r.UpdateAt idx f = r) ∧
    (¬ (r.count = 0 ∨ idx < 0 ∨ (r.data.length : Int) ≤ idx) →
      r.UpdateAt idx f
        = { r with data := r.data.set idx.toNat (f (r.data.getD idx.toNat default)) }) := by
  constructor
  · intro h
    unfold Ring.UpdateAt
    rw [if_pos h]
  · intro h
    unfold Ring.UpdateAt
    rw [if_neg h]

theorem updateAt_bounds_check_only_witness :
    Ring.UpdateAt (mkRing 2) 5 (fun s => { s with MS := 999 }) = mkRing 2 ∧
    Ring.UpdateAt (((mkRing 2).Push ⟨1, 10, 1, .ok⟩).1) 0 (fun s => { s with MS := 999 })
      = { ((mkRing 2).Push ⟨1, 10, 1, .ok⟩).1 with
          data := (((mkRing 2).Push ⟨1, 10, 1, .ok⟩).1).data.set (0 : Int).toNat
            ((fun s => { s with MS := 999 })
              ((((mkRing 2).Push ⟨1, 10, 1, .ok⟩).1).data.getD (0 : Int).toNat default)) } :=
  ⟨(updateAt_bounds_check_only (mkRing 2) 5 _).1 (by decide),
   (updateAt_bounds_check_only (((mkRing 2).Push ⟨1, 10, 1, .ok⟩).1) 0 _).2 (by decide)⟩

/-- C7 counterexample: with nothing configured, the probe loop derives
`MaxRTT = maxDur(3×1s, 150ms) = 3s`, not `maxDur(2×1s, 300ms) = 2s` as the
claim states (that formula is what the UI caller passes explicitly). -/
theorem maxRTT_default_formula_counterexample :
    (ProbingBackend.withDefaults
        { Privileged := false, Interval := 0, MaxRTT := 0, GraceLate := 0 }).MaxRTT
      = 3 * second ∧
    ¬ (ProbingBackend.withDefaults
        { Privileged := false, Interval := 0, MaxRTT := 0, GraceLate := 0 }).MaxRTT
      = maxDur (2 * (ProbingBackend.withDefaults
          { Privileged := false, Interval := 0, MaxRTT := 0, GraceLate := 0 }).Interval)
          (300 * millisecond) := by
  decide

/-- C7 (amended): when MaxRTT is not explicitly configured (non-positive),
the probe loop derives it as `maxDur(3×interval, 150 ms)` from the
already-defaulted interval, and the interval itself defaults to 1 second
when unconfigured (and is kept as configured otherwise). -/
theorem maxRTT_defaulting (pb : ProbingBackend) (h : pb.MaxRTT ≤ 0) :
    pb.withDefaults.MaxRTT
        = maxDur (3 * pb.withDefaults.Interval) (150 * millisecond) ∧
    (pb.Interval ≤ 0 → pb.withDefaults.Interval = second) ∧
    (0 < pb.Interval → pb.withDefaults.Interval = pb.Interval) := by
  unfold ProbingBackend.withDefaults
  refine ⟨?_, ?_, ?_⟩
  · rw [if_pos h]
  · intro hi
    rw [if_pos hi]
  · intro hi
    rw [if_neg (by omega)]

theorem maxRTT_defaulting_witness :
    (ProbingBackend.withDefaults
        { Privileged := false, Interval := 0, MaxRTT := 0, GraceLate := 0 }).MaxRTT
      = maxDur (3 * (ProbingBackend.withDefaults
          { Privileged := false, Interval := 0, MaxRTT := 0, GraceLate := 0 }).Interval)
          (150 * millisecond) ∧
    (ProbingBackend.withDefaults
        { Privileged := false, Interval := 0, MaxRTT := 0, GraceLate := 0 }).Interval
      = second :=
  ⟨(maxRTT_defaulting { Privileged := false, Interval := 0, MaxRTT := 0, GraceLate := 0 }
      (by decide)).1,
   (maxRTT_defaulting { Privileged := false, Interval := 0, MaxRTT := 0, GraceLate := 0 }
      (by decide)).2.1 (by decide)⟩

/-- C8: on cancellation the probe loop stops the pinger, clears every
Pending-Reply record (so an outstanding deadline timer firing afterwards
finds no record and inserts nothing; the ring is left untouched), and
returns the cancellation-kind result; a pinger failure instead yields a
result distinguishable from cancellation. -/
theorem cancellation_cleanup (pb : ProbingBackend) (st : LoopState) :
    (onCtxDone st).state.pends = [] ∧
    (onCtxDone st).state.ring = st.ring ∧
    (onCtxDone st).pingerStopped = true ∧
    (onCtxDone st).result = .ctxCanceled ∧
    (∀ (seq : Nat) (now : Int),
      stepEvent pb (onCtxDone st).state (.deadline seq now) = (onCtxDone st).state) ∧
    (∀ msg : String, (onRunError st msg).result ≠ .ctxCanceled) := by
  refine ⟨rfl, rfl, rfl, rfl, ?_, ?_⟩
  · intro seq now
    simp [stepEvent, onDeadline, onCtxDone, pendsLookup]
  · intro msg
    simp [onRunError]

/-- C9: `RemoveHostAt` returns `false` and leaves the registry unchanged for
an out-of-range position, removes and compacts (then renumbers) for an
in-range position returning `true`, and after every sequence of add/remove
operations each host's color/identity index equals its position in the
list (stable and gap-free). -/
theorem removeHost_and_color_invariant (m : AppModel) (idx : Int)
    (hout : idx < 0 ∨ (m.hosts.length : Int) ≤ idx) :
    m.RemoveHostAt idx = (m, false) ∧
    (∀ (m2 : AppModel) (j : Nat), j < m2.hosts.length →
      m2.RemoveHostAt (j : Int)
        = ({ m2 with
             hosts := renumberFrom 0 (m2.hosts.take j ++ m2.hosts.drop (j + 1)) },
           true)) ∧
    (∀ ops : List RegistryOp, ColorInv (applyOps NewAppModel ops)) := by
  refine ⟨?_, ?_, ?_⟩
  · unfold AppModel.RemoveHostAt
    rw [if_pos hout]
  · intro m2 j hj
    unfold AppModel.RemoveHostAt
    rw [if_neg (by omega)]
    simp
  · intro ops
    exact colorInv_applyOps NewAppModel ops rfl

theorem removeHost_and_color_invariant_witness :
    NewAppModel.RemoveHostAt 3 = (NewAppModel, false) ∧
    ColorInv (applyOps NewAppModel
      [.add "a" "10.0.0.1" 4, .add "b" "10.0.0.2" 4, .remove 0]) :=
  ⟨(removeHost_and_color_invariant NewAppModel 3 (by decide)).1,
   (removeHost_and_color_invariant NewAppModel 3 (by decide)).2.2
     [.add "a" "10.0.0.1" 4, .add "b" "10.0.0.2" 4, .remove 0]⟩

/-- C10 counterexample: `AddHost` with the negative capacity `-1` does not
create a host with a zero-capacity ring as the claim states for all
`c ≤ 0`; `make([]Sample, -1)` panics at runtime, modelled by `none`. -/
theorem addHost_negative_cap_no_host :
    AppModel.AddHost NewAppModel "host" "192.0.2.1" (-1) = none := rfl

/-- C10 (amended): `AddHostWithCap` substitutes the default capacity 600 for
a non-positive capacity, while `AddHost` applies no substitution: with
capacity 0 it creates a host whose ring has zero capacity — every `Push`
into such a ring returns the invalid index `-1` and stores nothing, and
`Snapshot` is always empty — and with a negative capacity the ring
allocation panics (modelled `none`). -/
theorem addHost_capacity_defaulting (m : AppModel) (name addr : String) (c : Int)
    (hc : c ≤ 0) :
    ((m.AddHostWithCap name addr c).map fun p => p.2.buf) = some (mkRing 600) ∧
    ((m.AddHost name addr 0).map fun p => p.2.buf) = some (mkRing 0) ∧
    (c < 0 → m.AddHost name addr c = none) ∧
    (∀ (ps : List Sample) (s : Sample),
      ((mkRing 0).pushAll ps).Push s = ((mkRing 0).pushAll ps, -1)) ∧
    (∀ ps : List Sample, ((mkRing 0).pushAll ps).Snapshot = []) := by
  refine ⟨?_, ?_, ?_, ?_, ?_⟩
  · unfold AppModel.AddHostWithCap NewRing
    rw [if_pos hc, if_neg (by decide)]
    rfl
  · unfold AppModel.AddHost NewRing
    rw [if_neg (by decide)]
    rfl
  · intro hneg
    unfold AppModel.AddHost NewRing
    rw [if_pos hneg]
    rfl
  · intro ps s
    rw [pushAll_zero]
    rfl
  · intro ps
    rw [pushAll_zero]
    exact snapshot_mk 0

theorem addHost_capacity_defaulting_witness :
    ((NewAppModel.AddHostWithCap "h" "10.0.0.9" (-5)).map fun p => p.2.buf)
        = some (mkRing 600) ∧
    NewAppModel.AddHost "h" "10.0.0.9" (-5) = none ∧
    ((mkRing 0).pushAll [⟨1, 2, 3, .ok⟩]).Push ⟨4, 5, 6, .ok⟩
        = ((mkRing 0).pushAll [⟨1, 2, 3, .ok⟩], -1) ∧
    ((mkRing 0).pushAll [⟨1, 2, 3, .ok⟩]).Snapshot = [] :=
  ⟨(addHost_capacity_defaulting NewAppModel "h" "10.0.0.9" (-5) (by decide)).1,
   (addHost_capacity_defaulting NewAppModel "h" "10.0.0.9" (-5) (by decide)).2.2.1
     (by decide),
   (addHost_capacity_defaulting NewAppModel "h" "10.0.0.9" (-5) (by decide)).2.2.2.1
     [⟨1, 2, 3, .ok⟩] ⟨4, 5, 6, .ok⟩,
   (addHost_capacity_defaulting NewAppModel "h" "10.0.0.9" (-5) (by decide)).2.2.2.2
     [⟨1, 2, 3, .ok⟩]⟩

end SpeedPing
